import Mathlib

/-!
Verification development for the audio degradation experiment in
`src/scripts/loss_experiment.py`.

The script repeatedly round-trips an audio signal through a lossy codec
(ffmpeg/opus, modelled as an opaque external transform), samples quality
metrics every `metrics_interval` iterations, and writes checkpoints every
`save_interval` iterations.

Modelling conventions:
- A `Signal` is the list of floating-point samples; float arithmetic is
  idealised over `ℚ`.
- External library primitives (numpy sqrt/log10/exp/log, scipy welch and
  entropy, librosa stft and frame) are opaque parameters collected in a
  `NumLib` structure: the embedded definitions reproduce the script's own
  dataflow exactly, while the library internals stay abstract.
- The external codec (two `subprocess.run` calls with `check=True` per
  iteration) is modelled as a pair of functions from the invocation index
  and the input signal to `Option Signal`; `none` models a nonzero exit
  status, which raises `CalledProcessError` and aborts the run.
- Filesystem effects (temporary artifacts in `temp_dir`, the checkpoint
  directory and `metrics.json`) are modelled as explicit state traces that
  record every intermediate on-disk state in program order.
-/

namespace LossExperiment

/-- A PCM sample buffer: the ordered list of samples (float values idealised
as rationals). The sample rate plays no role in any claim. -/
abbrev Signal := List ℚ

/-- `np.mean` of a list of rationals: sum divided by length. -/
def qmean (xs : List ℚ) : ℚ := xs.sum / xs.length

/-- The literal `1e-10` used as a numerical-stability epsilon in
`calculate_noise_entropy`. -/
def eps : ℚ := 1 / 10 ^ 10

/-- Opaque external numerical primitives used by the script (numpy, scipy,
librosa). Each field stands for one library function invoked by the source;
the embedding is parametric in them, so every theorem below holds for every
possible behaviour of these libraries. `stftMag` returns the magnitudes
`np.abs(librosa.stft(signal, n_fft=2048, hop_length=512))` as a list of
frames (the matrix columns), each frame being the list of frequency-bin
magnitudes; `frame1024` is `librosa.util.frame(signal, frame_length=1024,
hop_length=512)`, also as the list of columns (segments). -/
structure NumLib where
  sqrt : ℚ → ℚ
  log10 : ℚ → ℚ
  exp : ℚ → ℚ
  log : ℚ → ℚ
  welch : List ℚ → List ℚ
  entropyFn : List ℚ → ℚ
  stftMag : List ℚ → List (List ℚ)
  frame1024 : List ℚ → List (List ℚ)

/-- `np.std`: square root of the mean squared deviation from the mean. -/
def qstd (lib : NumLib) (xs : List ℚ) : ℚ :=
  lib.sqrt (qmean (xs.map (fun x => (x - qmean xs) ^ 2)))

/-- Noise metrics returned by `calculate_noise_entropy` (source lines 60-64). -/
structure NoiseMetrics where
  spectral_flatness : ℚ
  spectral_entropy : ℚ
  temporal_variation : ℚ
deriving DecidableEq, Repr

/-- Embedding of `calculate_noise_entropy` (source lines 43-64).
`S = np.abs(librosa.stft(signal))`; spectral flatness per frame is
`exp(mean(log(S + 1e-10), axis=0)) / (mean(S, axis=0) + 1e-10)` and the
reported value is its mean over frames; spectral entropy is the mean over
frames of `entropy` applied to the per-frame sum-normalised magnitudes;
temporal variation is the standard deviation across segments of each
segment's own standard deviation. The function reads only `signal`. -/
def calculate_noise_entropy (lib : NumLib) (signal : Signal) : NoiseMetrics :=
  { spectral_flatness :=
      qmean ((lib.stftMag signal).map (fun col =>
        lib.exp (qmean (col.map (fun s => lib.log (s + eps)))) / (qmean col + eps)))
    spectral_entropy :=
      qmean ((lib.stftMag signal).map (fun col =>
        lib.entropyFn (col.map (fun s => s / (col.sum + eps)))))
    temporal_variation :=
      qstd lib ((lib.frame1024 signal).map (fun seg => qstd lib seg)) }

/-- `psnr` is either the `float("inf")` sentinel (perfect match) or a finite
float value; the two constructors are distinguishable by construction. -/
inductive PsnrVal where
  | inf
  | finite (v : ℚ)
deriving DecidableEq, Repr

/-- The record returned by `calculate_audio_metrics` (source lines 85-91). -/
structure AudioMetrics where
  psnr : PsnrVal
  mse : ℚ
  rms_diff : ℚ
  spectral_diff : ℚ
  noise_metrics : NoiseMetrics
deriving DecidableEq, Repr

/-- The computations of `calculate_audio_metrics` performed after the
truncation to the common length (source lines 72-91):
`mse = np.mean((orig - proc) ** 2)`;
`psnr = 10 * np.log10(1.0 / mse) if mse > 0 else float("inf")`;
`rms_diff = abs(sqrt(mean(orig**2)) - sqrt(mean(proc**2)))`;
`spectral_diff = np.mean(np.abs(welch(orig).psd - welch(proc).psd))`;
`noise_metrics = calculate_noise_entropy(proc)`. -/
def metricsCore (lib : NumLib) (orig proc : Signal) : AudioMetrics :=
  let mse := qmean (List.zipWith (fun a b => (a - b) ^ 2) orig proc)
  { psnr := if 0 < mse then PsnrVal.finite (10 * lib.log10 (1 / mse)) else PsnrVal.inf
    mse := mse
    rms_diff := |lib.sqrt (qmean (orig.map (fun x => x ^ 2))) -
                 lib.sqrt (qmean (proc.map (fun x => x ^ 2)))|
    spectral_diff := qmean (List.zipWith (fun a b => |a - b|) (lib.welch orig) (lib.welch proc))
    noise_metrics := calculate_noise_entropy lib proc }

/-- Embedding of `calculate_audio_metrics` (source lines 67-91): both inputs
are truncated to `min_len = min(len(orig_signal), len(processed_signal))`
(source lines 68-70) and every field is computed from the truncated buffers. -/
def calculate_audio_metrics (lib : NumLib) (orig_signal processed_signal : Signal) :
    AudioMetrics :=
  metricsCore lib
    (orig_signal.take (min orig_signal.length processed_signal.length))
    (processed_signal.take (min orig_signal.length processed_signal.length))

/-- Helper: the elementwise squared difference of a list with itself sums to 0. -/
theorem diag_sq_sum (x : List ℚ) :
    (List.zipWith (fun a b => (a - b) ^ 2) x x).sum = 0 := by
  induction x with
  | nil => simp
  | cons a t ih => simp [ih]

/-- Claim C8: `calculate_audio_metrics(a, b)` equals
`calculate_audio_metrics(a[:m], b[:m])` with `m = min(len(a), len(b))`; every
field, the nested noise profile included, is computed on the inputs truncated
to the common length. -/
theorem c8_truncation (lib : NumLib) (a b : Signal) :
    calculate_audio_metrics lib a b =
      calculate_audio_metrics lib
        (a.take (min a.length b.length)) (b.take (min a.length b.length)) := by
  unfold calculate_audio_metrics
  have hla : (a.take (min a.length b.length)).length = min a.length b.length := by
    simp [List.length_take]
  have hlb : (b.take (min a.length b.length)).length = min a.length b.length := by
    simp [List.length_take]
  rw [hla, hlb, Nat.min_self, List.take_take, List.take_take, Nat.min_self]

/-- Claim C9: for a non-empty signal `x`, `calculate_audio_metrics(x, x)`
yields `mse = 0`, `psnr = inf` and `rms_diff = 0`, and the `inf` sentinel is
distinguishable from every finite value. -/
theorem c9_identity (lib : NumLib) (x : Signal) (hx : x ≠ []) :
    (calculate_audio_metrics lib x x).mse = 0 ∧
    (calculate_audio_metrics lib x x).psnr = PsnrVal.inf ∧
    (calculate_audio_metrics lib x x).rms_diff = 0 ∧
    ∀ v : ℚ, PsnrVal.inf ≠ PsnrVal.finite v := by
  have h0 : qmean (List.replicate x.length (0 : ℚ)) = 0 := by
    simp [qmean]
  refine ⟨?_, ?_, ?_, ?_⟩
  · simp [calculate_audio_metrics, metricsCore, h0]
  · simp [calculate_audio_metrics, metricsCore, h0]
  · simp [calculate_audio_metrics, metricsCore]
  · intro v h
    exact PsnrVal.noConfusion h

/-- Witness for C9 at `x = [1]` with a concrete instantiation of the library
primitives. -/
def zeroLib : NumLib :=
  { sqrt := fun _ => 0, log10 := fun _ => 0, exp := fun _ => 0, log := fun _ => 0
    welch := fun s => s, entropyFn := fun _ => 0
    stftMag := fun s => [s], frame1024 := fun s => [s] }

theorem c9_identity_witness :
    ((1 : ℚ) :: [] ≠ []) ∧
    ((calculate_audio_metrics zeroLib ((1 : ℚ) :: []) ((1 : ℚ) :: [])).mse = 0 ∧
     (calculate_audio_metrics zeroLib ((1 : ℚ) :: []) ((1 : ℚ) :: [])).psnr = PsnrVal.inf ∧
     (calculate_audio_metrics zeroLib ((1 : ℚ) :: []) ((1 : ℚ) :: [])).rms_diff = 0 ∧
     ∀ v : ℚ, PsnrVal.inf ≠ PsnrVal.finite v) :=
  ⟨by decide, c9_identity zeroLib ((1 : ℚ) :: []) (by decide)⟩

/-- Claim C10: the nested noise metrics depend only on the degraded signal
truncated to the common length, never on the original signal's sample
values: two originals of equal length give identical noise profiles against
the same degraded signal. -/
theorem c10_noise_independent (lib : NumLib) (a a' b : Signal)
    (h : a.length = a'.length) :
    (calculate_audio_metrics lib a b).noise_metrics =
      (calculate_audio_metrics lib a' b).noise_metrics := by
  simp [calculate_audio_metrics, metricsCore, h]

theorem c10_noise_independent_witness :
    (((1 : ℚ) :: (2 : ℚ) :: []).length = ((5 : ℚ) :: (7 : ℚ) :: []).length) ∧
    (calculate_audio_metrics zeroLib ((1 : ℚ) :: (2 : ℚ) :: []) ((3 : ℚ) :: [])).noise_metrics =
      (calculate_audio_metrics zeroLib ((5 : ℚ) :: (7 : ℚ) :: []) ((3 : ℚ) :: [])).noise_metrics :=
  ⟨by decide, c10_noise_independent zeroLib _ _ _ (by decide)⟩

/-!
## The main degradation loop (source lines 198-291)

Value-level behaviour of `main`: per iteration `i` the script runs
`convert_wav_to_opus(current, opus)` then `convert_opus_to_wav(opus, wav)`
(two `subprocess.run(..., check=True)` calls — a nonzero exit status raises
and aborts the run); if `i % metrics_interval == 0` it computes
`calculate_audio_metrics(orig_signal, processed_signal)` on the freshly
decoded signal and appends the result to `metrics`; finally `current = wav`.
Checkpoint writes (lines 248-270) touch only the filesystem, which is
modelled separately below. The two external conversions are modelled as
functions of the global invocation index (counting `subprocess.run` calls)
and the input signal, returning `none` on failure; metrics computation is
likewise fallible (`none` models an exception raised inside
`calculate_audio_metrics`, e.g. by librosa on a degenerate signal).
-/

/-- A Python exception aborting `main`. -/
inductive Err where
  | codecFailure (call : Nat)
  | metricsFailure
deriving DecidableEq, Repr

/-- The loop's mutable state: `current` (the signal held in the `current`
slot), `series` (the `metrics` list) and `calls` (how many external codec
invocations have happened so far). -/
structure LoopState where
  current : Signal
  series : List AudioMetrics
  calls : Nat
deriving DecidableEq, Repr

/-- One iteration `i` of the loop body (source lines 219-278), minus the
filesystem effects: encode, decode, sample metrics when
`i % K == 0`, set `current` to the decoded signal. -/
def loopStep (enc dec : Nat → Signal → Option Signal)
    (metricsFn : Signal → Signal → Option AudioMetrics)
    (orig : Signal) (K : Nat) (i : Nat) (st : LoopState) : Except Err LoopState :=
  match enc st.calls st.current with
  | none => Except.error (Err.codecFailure st.calls)
  | some encoded =>
    match dec (st.calls + 1) encoded with
    | none => Except.error (Err.codecFailure (st.calls + 1))
    | some processed =>
      if i % K = 0 then
        match metricsFn orig processed with
        | none => Except.error Err.metricsFailure
        | some m =>
          Except.ok ⟨processed, st.series ++ [m], st.calls + 2⟩
      else
        Except.ok ⟨processed, st.series, st.calls + 2⟩

/-- Run `len` consecutive iterations starting at iteration index `start`. -/
def runFrom (enc dec : Nat → Signal → Option Signal)
    (metricsFn : Signal → Signal → Option AudioMetrics)
    (orig : Signal) (K : Nat) : Nat → Nat → LoopState → Except Err LoopState
  | _, 0, st => Except.ok st
  | start, len + 1, st =>
    match loopStep enc dec metricsFn orig K start st with
    | Except.error e => Except.error e
    | Except.ok st2 => runFrom enc dec metricsFn orig K (start + 1) len st2

/-- The whole run: `for i in range(N)` from the freshly loaded input. -/
def runLoop (enc dec : Nat → Signal → Option Signal)
    (metricsFn : Signal → Signal → Option AudioMetrics)
    (orig : Signal) (N K : Nat) : Except Err LoopState :=
  runFrom enc dec metricsFn orig K 0 N ⟨orig, [], 0⟩

/-- A deterministic, never-failing external conversion (identical behaviour
on every invocation). -/
def pureEnc (e : Signal → Signal) : Nat → Signal → Option Signal :=
  fun _ s => some (e s)

/-- A never-failing metrics computation. -/
def pureMet (f : Signal → Signal → AudioMetrics) :
    Signal → Signal → Option AudioMetrics :=
  fun a b => some (f a b)

/-- `loopStep` in the failure-free case, as a total function. -/
def pureStep (e d : Signal → Signal) (f : Signal → Signal → AudioMetrics)
    (orig : Signal) (K : Nat) (i : Nat) (st : LoopState) : LoopState :=
  if i % K = 0 then
    ⟨d (e st.current), st.series ++ [f orig (d (e st.current))], st.calls + 2⟩
  else
    ⟨d (e st.current), st.series, st.calls + 2⟩

/-- `runFrom` in the failure-free case. -/
def pureRun (e d : Signal → Signal) (f : Signal → Signal → AudioMetrics)
    (orig : Signal) (K : Nat) : Nat → Nat → LoopState → LoopState
  | _, 0, st => st
  | start, len + 1, st =>
    pureRun e d f orig K (start + 1) len (pureStep e d f orig K start st)

/-- With deterministic, never-failing codec and metrics, the fallible loop
computes the total function `pureRun`. -/
theorem runFrom_pure (e d : Signal → Signal) (f : Signal → Signal → AudioMetrics)
    (orig : Signal) (K : Nat) :
    ∀ (len start : Nat) (st : LoopState),
      runFrom (pureEnc e) (pureEnc d) (pureMet f) orig K start len st =
        Except.ok (pureRun e d f orig K start len st) := by
  intro len
  induction len with
  | zero => intro start st; rfl
  | succ n ih =>
    intro start st
    show (match loopStep (pureEnc e) (pureEnc d) (pureMet f) orig K start st with
      | Except.error err => Except.error err
      | Except.ok st2 =>
          runFrom (pureEnc e) (pureEnc d) (pureMet f) orig K (start + 1) n st2) = _
    by_cases h : start % K = 0 <;>
      simp [loopStep, pureEnc, pureMet, pureRun, pureStep, h, ih]

/-- Splitting a pure run into two consecutive segments. -/
theorem pureRun_add (e d : Signal → Signal) (f : Signal → Signal → AudioMetrics)
    (orig : Signal) (K : Nat) :
    ∀ (a b start : Nat) (st : LoopState),
      pureRun e d f orig K start (a + b) st =
        pureRun e d f orig K (start + a) b (pureRun e d f orig K start a st) := by
  intro a
  induction a with
  | zero => intro b start st; simp [pureRun]
  | succ n ih =>
    intro b start st
    have hn : n + 1 + b = (n + b) + 1 := by omega
    rw [hn]
    show pureRun e d f orig K (start + 1) (n + b) (pureStep e d f orig K start st) = _
    rw [ih]
    have hs : start + 1 + n = start + (n + 1) := by omega
    rw [hs]
    rfl

/-- One trailing iteration of a pure run. -/
theorem pureRun_succ (e d : Signal → Signal) (f : Signal → Signal → AudioMetrics)
    (orig : Signal) (K : Nat) (n : Nat) (st : LoopState) :
    pureRun e d f orig K 0 (n + 1) st =
      pureStep e d f orig K n (pureRun e d f orig K 0 n st) := by
  have := pureRun_add e d f orig K n 1 0 st
  simpa [pureRun] using this

/-- Full characterisation of a failure-free run started from the input:
after `n` iterations the current signal is the `n`-fold codec round-trip of
the original, and the series holds exactly one record for each iteration
index `i < n` with `i % K == 0`, in order, each computed by the metrics
function from the original and the `(i+1)`-fold round-trip. -/
theorem pureRun_spec (e d : Signal → Signal) (f : Signal → Signal → AudioMetrics)
    (orig : Signal) (K : Nat) (n : Nat) :
    pureRun e d f orig K 0 n ⟨orig, [], 0⟩ =
      ⟨(fun s => d (e s))^[n] orig,
       ((List.range n).filter (fun i => i % K == 0)).map
         (fun i => f orig ((fun s => d (e s))^[i + 1] orig)),
       2 * n⟩ := by
  induction n with
  | zero => rfl
  | succ m ih =>
    rw [pureRun_succ, ih]
    by_cases h : m % K = 0 <;>
      simp [pureStep, h, List.range_succ, List.filter_append, List.map_append,
        Function.iterate_succ_apply', Nat.mul_succ]

/-- Counting the sampled iteration indices: the multiples of `K` below `N`
are exactly `0, K, 2K, ...`, and there are `ceil(N / K) = (N + K - 1) / K`
of them. -/
theorem range_filter_mod (K : Nat) (hK : 1 ≤ K) :
    ∀ N : Nat, (List.range N).filter (fun i => i % K == 0) =
      (List.range ((N + K - 1) / K)).map (fun p => p * K) := by
  intro N
  induction N with
  | zero =>
    have h : (K - 1) / K = 0 := Nat.div_eq_of_lt (by omega)
    simp [h]
  | succ m ih =>
    rw [List.range_succ, List.filter_append, ih]
    by_cases h : m % K = 0
    · obtain ⟨q, hq⟩ : K ∣ m := Nat.dvd_of_mod_eq_zero h
      have h1 : m + 1 + K - 1 = K * q + K := by omega
      have h2 : (K * q + K) / K = q + 1 := by
        rw [Nat.mul_add_div (by omega)]
        have hKK : K / K = 1 := Nat.div_self (by omega)
        omega
      have h3 : m + K - 1 = K * q + (K - 1) := by omega
      have h4 : (K * q + (K - 1)) / K = q := by
        rw [Nat.mul_add_div (by omega)]
        have h5 : (K - 1) / K = 0 := Nat.div_eq_of_lt (by omega)
        omega
      rw [h1, h2, h3, h4, List.range_succ, List.map_append]
      simp [h, hq, Nat.mul_comm]
    · have hrK : m % K < K := Nat.mod_lt m (by omega)
      have hm := Nat.div_add_mod m K
      have hd : K * (m / K + 1) = K * (m / K) + K := by ring
      have h1 : m + 1 + K - 1 = K * (m / K + 1) + m % K := by omega
      have h2 : (K * (m / K + 1) + m % K) / K = m / K + 1 := by
        rw [Nat.mul_add_div (by omega)]
        have h5 : m % K / K = 0 := Nat.div_eq_of_lt hrK
        omega
      have h3 : m + K - 1 = K * (m / K + 1) + (m % K - 1) := by omega
      have h4 : (K * (m / K + 1) + (m % K - 1)) / K = m / K + 1 := by
        rw [Nat.mul_add_div (by omega)]
        have h5 : (m % K - 1) / K = 0 := Nat.div_eq_of_lt (by omega)
        omega
      rw [h1, h2, h3, h4]
      simp [h]

/-- The current signal and the metrics series produced by a failure-free run
do not depend on the external-invocation counter of the starting state. -/
theorem pureRun_calls (e d : Signal → Signal) (f : Signal → Signal → AudioMetrics)
    (orig : Signal) (K : Nat) :
    ∀ (len start : Nat) (cur : Signal) (ser : List AudioMetrics) (k k' : Nat),
      (pureRun e d f orig K start len ⟨cur, ser, k⟩).current =
        (pureRun e d f orig K start len ⟨cur, ser, k'⟩).current ∧
      (pureRun e d f orig K start len ⟨cur, ser, k⟩).series =
        (pureRun e d f orig K start len ⟨cur, ser, k'⟩).series := by
  intro len
  induction len with
  | zero => intro start cur ser k k'; exact ⟨rfl, rfl⟩
  | succ n ih =>
    intro start cur ser k k'
    have hstep : ∀ (c : Signal) (s : List AudioMetrics) (kk : Nat),
        pureStep e d f orig K start ⟨c, s, kk⟩ =
          if start % K = 0 then ⟨d (e c), s ++ [f orig (d (e c))], kk + 2⟩
          else ⟨d (e c), s, kk + 2⟩ :=
      fun _ _ _ => rfl
    simp only [pureRun, hstep]
    by_cases h : start % K = 0
    · rw [if_pos h, if_pos h]
      exact ih (start + 1) (d (e cur)) (ser ++ [f orig (d (e cur))]) (k + 2) (k' + 2)
    · rw [if_neg h, if_neg h]
      exact ih (start + 1) (d (e cur)) ser (k + 2) (k' + 2)

/-- Claim C1: for `total_iterations ≥ 1`, `sample_every ≥ 1` and any codec
transform, the metrics series has length `ceil(N / K) = (N + K - 1) / K`,
with exactly one record produced at each iteration index `i` with
`i % K == 0` (indices `0, K, 2K, ...`) and none at any other iteration.
The checkpoint cadence does not influence the series. -/
theorem c1_series_sampling (e d : Signal → Signal) (f : Signal → Signal → AudioMetrics)
    (orig : Signal) (N K : Nat) (hN : 1 ≤ N) (hK : 1 ≤ K) :
    ∃ st : LoopState,
      runLoop (pureEnc e) (pureEnc d) (pureMet f) orig N K = Except.ok st ∧
      st.series = ((List.range N).filter (fun i => i % K == 0)).map
          (fun i => f orig ((fun s => d (e s))^[i + 1] orig)) ∧
      st.series.length = (N + K - 1) / K := by
  refine ⟨pureRun e d f orig K 0 N ⟨orig, [], 0⟩, ?_, ?_, ?_⟩
  · exact runFrom_pure e d f orig K N 0 ⟨orig, [], 0⟩
  · rw [pureRun_spec]
  · rw [pureRun_spec]
    show (((List.range N).filter (fun i => i % K == 0)).map
      (fun i => f orig ((fun s => d (e s))^[i + 1] orig))).length = (N + K - 1) / K
    rw [range_filter_mod K hK N]
    simp

/-- A constant quality-metrics record used for concrete evaluations. -/
def m0 : AudioMetrics :=
  ⟨PsnrVal.inf, 0, 0, 0, ⟨0, 0, 0⟩⟩

/-- Identity transform used as a concrete deterministic codec stage. -/
def wId : Signal → Signal := fun s => s

/-- Constant metrics function used for concrete evaluations. -/
def wMet : Signal → Signal → AudioMetrics := fun _ _ => m0

/-- Concrete one-sample input signal. -/
def wSig : Signal := [1]

theorem c1_series_sampling_witness :
    (1 ≤ 3) ∧ (1 ≤ 2) ∧
    ∃ st : LoopState,
      runLoop (pureEnc wId) (pureEnc wId) (pureMet wMet) wSig 3 2 = Except.ok st ∧
      st.series = ((List.range 3).filter (fun i => i % 2 == 0)).map
          (fun i => wMet wSig ((fun s => wId (wId s))^[i + 1] wSig)) ∧
      st.series.length = (3 + 2 - 1) / 2 :=
  ⟨by decide, by decide, c1_series_sampling wId wId wMet wSig 3 2 (by decide) (by decide)⟩

/-!
## Resumption (claim C2)

`main` has no resume path: every run starts from `current = input_path`,
`metrics = []`, iteration 0. The `CheckpointState` and the resume operation
are therefore modelled from the spec and proved equivalent to the
uninterrupted source loop.
-/

/-- Modelled from the spec: `CheckpointState` is {last completed iteration
index, reference to the current Signal, MetricsSeries so far} (the wall-clock
timestamp carries no loop-visible information). No resume path exists in
`src`. -/
structure CheckpointState where
  last_completed : Nat
  current_signal : Signal
  metrics_series : List AudioMetrics

/-- Modelled from the spec: resumption restores `current_signal` and
`metrics_series` and continues from `last_completed_iteration + 1`, running
the remaining iterations of a `total`-iteration experiment. The external
invocation counter restarts at 0 in the new process. -/
def resumeRun (enc dec : Nat → Signal → Option Signal)
    (metricsFn : Signal → Signal → Option AudioMetrics)
    (orig : Signal) (K : Nat) (cp : CheckpointState) (total : Nat) :
    Except Err LoopState :=
  runFrom enc dec metricsFn orig K (cp.last_completed + 1)
    (total - (cp.last_completed + 1))
    ⟨cp.current_signal, cp.metrics_series, 0⟩

/-- Claim C2: for an even `N` and a deterministic codec, running `N`
iterations uninterrupted yields the same final signal and metrics series as
running `N/2` iterations, checkpointing, and resuming from that checkpoint
(restoring `current_signal` and `metrics_series`, continuing from
`last_completed + 1`) for the remaining `N/2`. -/
theorem c2_resumption_equiv (e d : Signal → Signal)
    (f : Signal → Signal → AudioMetrics) (orig : Signal) (K N : Nat)
    (hN2 : N % 2 = 0) (hpos : 0 < N) (st : LoopState)
    (hhalf : runLoop (pureEnc e) (pureEnc d) (pureMet f) orig (N / 2) K =
      Except.ok st) :
    ∃ stFull stRes : LoopState,
      runLoop (pureEnc e) (pureEnc d) (pureMet f) orig N K = Except.ok stFull ∧
      resumeRun (pureEnc e) (pureEnc d) (pureMet f) orig K
        ⟨N / 2 - 1, st.current, st.series⟩ N = Except.ok stRes ∧
      stFull.current = stRes.current ∧ stFull.series = stRes.series := by
  have hdef := runFrom_pure e d f orig K (N / 2) 0 ⟨orig, [], 0⟩
  rw [runLoop] at hhalf
  rw [hdef] at hhalf
  have hst : pureRun e d f orig K 0 (N / 2) ⟨orig, [], 0⟩ = st :=
    Except.ok.inj hhalf
  refine ⟨pureRun e d f orig K 0 N ⟨orig, [], 0⟩,
    pureRun e d f orig K (N / 2) (N / 2) ⟨st.current, st.series, 0⟩, ?_, ?_, ?_, ?_⟩
  · exact runFrom_pure e d f orig K N 0 ⟨orig, [], 0⟩
  · show runFrom (pureEnc e) (pureEnc d) (pureMet f) orig K (N / 2 - 1 + 1)
      (N - (N / 2 - 1 + 1)) ⟨st.current, st.series, 0⟩ = _
    have h1 : N / 2 - 1 + 1 = N / 2 := by omega
    have h2 : N - N / 2 = N / 2 := by omega
    rw [h1, h2]
    exact runFrom_pure e d f orig K (N / 2) (N / 2) ⟨st.current, st.series, 0⟩
  · have hsplit : pureRun e d f orig K 0 N ⟨orig, [], 0⟩ =
        pureRun e d f orig K (N / 2) (N / 2)
          (pureRun e d f orig K 0 (N / 2) ⟨orig, [], 0⟩) := by
      have hN : N = N / 2 + N / 2 := by omega
      calc pureRun e d f orig K 0 N ⟨orig, [], 0⟩
          = pureRun e d f orig K 0 (N / 2 + N / 2) ⟨orig, [], 0⟩ := by rw [← hN]
        _ = pureRun e d f orig K (0 + N / 2) (N / 2)
              (pureRun e d f orig K 0 (N / 2) ⟨orig, [], 0⟩) :=
            pureRun_add e d f orig K (N / 2) (N / 2) 0 ⟨orig, [], 0⟩
        _ = pureRun e d f orig K (N / 2) (N / 2)
              (pureRun e d f orig K 0 (N / 2) ⟨orig, [], 0⟩) := by
            rw [Nat.zero_add]
    rw [hsplit, hst]
    obtain ⟨cur, ser, k⟩ := st
    exact (pureRun_calls e d f orig K (N / 2) (N / 2) cur ser k 0).1
  · have hsplit : pureRun e d f orig K 0 N ⟨orig, [], 0⟩ =
        pureRun e d f orig K (N / 2) (N / 2)
          (pureRun e d f orig K 0 (N / 2) ⟨orig, [], 0⟩) := by
      have hN : N = N / 2 + N / 2 := by omega
      calc pureRun e d f orig K 0 N ⟨orig, [], 0⟩
          = pureRun e d f orig K 0 (N / 2 + N / 2) ⟨orig, [], 0⟩ := by rw [← hN]
        _ = pureRun e d f orig K (0 + N / 2) (N / 2)
              (pureRun e d f orig K 0 (N / 2) ⟨orig, [], 0⟩) :=
            pureRun_add e d f orig K (N / 2) (N / 2) 0 ⟨orig, [], 0⟩
        _ = pureRun e d f orig K (N / 2) (N / 2)
              (pureRun e d f orig K 0 (N / 2) ⟨orig, [], 0⟩) := by
            rw [Nat.zero_add]
    rw [hsplit, hst]
    obtain ⟨cur, ser, k⟩ := st
    exact (pureRun_calls e d f orig K (N / 2) (N / 2) cur ser k 0).2

theorem c2_resumption_equiv_witness :
    (2 % 2 = 0) ∧ (0 < 2) ∧
    (runLoop (pureEnc wId) (pureEnc wId) (pureMet wMet) wSig (2 / 2) 1 =
      Except.ok (⟨wSig, [m0], 2⟩ : LoopState)) ∧
    (∃ stFull stRes : LoopState,
      runLoop (pureEnc wId) (pureEnc wId) (pureMet wMet) wSig 2 1 =
        Except.ok stFull ∧
      resumeRun (pureEnc wId) (pureEnc wId) (pureMet wMet) wSig 1
        ⟨2 / 2 - 1, (⟨wSig, [m0], 2⟩ : LoopState).current,
          (⟨wSig, [m0], 2⟩ : LoopState).series⟩ 2 = Except.ok stRes ∧
      stFull.current = stRes.current ∧ stFull.series = stRes.series) :=
  ⟨by decide, by decide, by rfl,
    c2_resumption_equiv wId wId wMet wSig 1 2 (by decide) (by decide)
      ⟨wSig, [m0], 2⟩ (by rfl)⟩

/-!
## Codec failure (claim C5)

`convert_wav_to_opus` and `convert_opus_to_wav` call
`subprocess.run(..., check=True)` exactly once and contain no retry logic;
`main` wraps the calls in no try/except, so the first nonzero exit status
raises `CalledProcessError` and aborts the run.
-/

/-- An external conversion whose invocation number `j` fails (nonzero exit
status) while every other invocation performs the deterministic transform
`e`. -/
def failAt (j : Nat) (e : Signal → Signal) : Nat → Signal → Option Signal :=
  fun c s => if c = j then none else some (e s)

/-- Splitting a fallible run into two consecutive segments: the second runs
only if the first succeeded. -/
theorem runFrom_split (enc dec : Nat → Signal → Option Signal)
    (mf : Signal → Signal → Option AudioMetrics) (orig : Signal) (K : Nat) :
    ∀ (a b start : Nat) (st : LoopState),
      runFrom enc dec mf orig K start (a + b) st =
        match runFrom enc dec mf orig K start a st with
        | Except.error err => Except.error err
        | Except.ok st2 => runFrom enc dec mf orig K (start + a) b st2 := by
  intro a
  induction a with
  | zero => intro b start st; simp [runFrom]
  | succ n ih =>
    intro b start st
    have hn : n + 1 + b = (n + b) + 1 := by omega
    rw [hn]
    show (match loopStep enc dec mf orig K start st with
      | Except.error err => Except.error err
      | Except.ok st2 => runFrom enc dec mf orig K (start + 1) (n + b) st2) = _
    rcases hstep : loopStep enc dec mf orig K start st with err | st2
    · simp [runFrom, hstep]
    · have hs : start + 1 + n = start + (n + 1) := by omega
      simp [runFrom, hstep, ih, hs]

theorem pureStep_calls (e d : Signal → Signal) (f : Signal → Signal → AudioMetrics)
    (orig : Signal) (K i : Nat) (st : LoopState) :
    (pureStep e d f orig K i st).calls = st.calls + 2 := by
  unfold pureStep
  split <;> rfl

/-- As long as every external invocation index used so far lies below `j`,
a run whose conversions agree with the deterministic pair `e`, `d` on all
indices below `j` behaves exactly like the failure-free run. -/
theorem runFrom_agreeBelow (e d : Signal → Signal)
    (enc' dec' : Nat → Signal → Option Signal)
    (f : Signal → Signal → AudioMetrics) (orig : Signal) (K j : Nat)
    (hE : ∀ (c : Nat) (s : Signal), c < j → enc' c s = some (e s))
    (hD : ∀ (c : Nat) (s : Signal), c < j → dec' c s = some (d s)) :
    ∀ (len start : Nat) (st : LoopState), st.calls + 2 * len ≤ j →
      runFrom enc' dec' (pureMet f) orig K start len st =
        Except.ok (pureRun e d f orig K start len st) := by
  intro len
  induction len with
  | zero => intro start st h; rfl
  | succ n ih =>
    intro start st h
    have h1 : st.calls < j := by omega
    have h2 : st.calls + 1 < j := by omega
    have hstep : loopStep enc' dec' (pureMet f) orig K start st =
        Except.ok (pureStep e d f orig K start st) := by
      unfold loopStep pureStep
      simp only [hE st.calls st.current h1]
      simp only [hD (st.calls + 1) (e st.current) h2]
      by_cases hs : start % K = 0 <;> simp [pureMet, hs]
    show (match loopStep enc' dec' (pureMet f) orig K start st with
      | Except.error err => Except.error err
      | Except.ok st2 => runFrom enc' dec' (pureMet f) orig K (start + 1) n st2) = _
    rw [hstep]
    show runFrom enc' dec' (pureMet f) orig K (start + 1) n
      (pureStep e d f orig K start st) = _
    rw [ih (start + 1) (pureStep e d f orig K start st)
      (by rw [pureStep_calls]; omega)]
    rfl

/-- Claim C5 counterexample: a codec whose first invocation fails but whose
second invocation (what a single retry would perform, on the same input)
succeeds still aborts the entire run with a fatal error from invocation 0:
no retry is ever attempted. -/
theorem c5_counterexample :
    runLoop (failAt 0 wId) (pureEnc wId) (pureMet wMet) wSig 1 1 =
      Except.error (Err.codecFailure 0) ∧
    failAt 0 wId 1 wSig = some wSig :=
  ⟨rfl, rfl⟩

/-- Claim C5 as amended: when any codec invocation fails the loop performs
no retry — the single failed invocation immediately surfaces as a fatal
error aborting the run (so a failing iteration is never silently skipped),
even though every retry invocation would have succeeded with the same
input. Iteration `i` issues invocation `2*i` (wav-to-opus) and `2*i + 1`
(opus-to-wav), so every invocation index `j` reached by an `N`-iteration
run (`j < 2*N`) is covered: failing the lone invocation `j` of the
corresponding converter aborts the run with exactly that invocation's
error. -/
theorem c5_no_retry (e d : Signal → Signal) (f : Signal → Signal → AudioMetrics)
    (orig : Signal) (N K j : Nat) (hj : j < 2 * N) :
    (j % 2 = 0 →
      runLoop (failAt j e) (pureEnc d) (pureMet f) orig N K =
        Except.error (Err.codecFailure j)) ∧
    (j % 2 = 1 →
      runLoop (pureEnc e) (failAt j d) (pureMet f) orig N K =
        Except.error (Err.codecFailure j)) ∧
    (∀ (c : Nat) (s : Signal), c ≠ j → failAt j e c s = some (e s)) ∧
    (∀ (c : Nat) (s : Signal), c ≠ j → failAt j d c s = some (d s)) := by
  refine ⟨?_, ?_, ?_, ?_⟩
  · intro hpar
    obtain ⟨m, rfl⟩ : ∃ m, j = 2 * m := ⟨j / 2, by omega⟩
    obtain ⟨t, ht⟩ : ∃ t, N - m = t + 1 := ⟨N - m - 1, by omega⟩
    have hN : N = m + (t + 1) := by omega
    have hE : ∀ (c : Nat) (s : Signal), c < 2 * m →
        failAt (2 * m) e c s = some (e s) := by
      intro c s hc
      have hne : c ≠ 2 * m := by omega
      simp [failAt, hne]
    have hD : ∀ (c : Nat) (s : Signal), c < 2 * m →
        pureEnc d c s = some (d s) := by
      intro c s hc
      rfl
    rw [runLoop, hN, runFrom_split]
    rw [runFrom_agreeBelow e d (failAt (2 * m) e) (pureEnc d) f orig K (2 * m)
      hE hD m 0 ⟨orig, [], 0⟩ (by simp)]
    show runFrom (failAt (2 * m) e) (pureEnc d) (pureMet f) orig K (0 + m)
      (t + 1) (pureRun e d f orig K 0 m ⟨orig, [], 0⟩) = _
    rw [pureRun_spec]
    show (match loopStep (failAt (2 * m) e) (pureEnc d) (pureMet f) orig K
        (0 + m) ⟨(fun s => d (e s))^[m] orig,
          ((List.range m).filter (fun i => i % K == 0)).map
            (fun i => f orig ((fun s => d (e s))^[i + 1] orig)), 2 * m⟩ with
      | Except.error err => Except.error err
      | Except.ok st2 =>
          runFrom (failAt (2 * m) e) (pureEnc d) (pureMet f) orig K
            (0 + m + 1) t st2) = _
    simp [loopStep, failAt]
  · intro hpar
    obtain ⟨m, rfl⟩ : ∃ m, j = 2 * m + 1 := ⟨j / 2, by omega⟩
    obtain ⟨t, ht⟩ : ∃ t, N - m = t + 1 := ⟨N - m - 1, by omega⟩
    have hN : N = m + (t + 1) := by omega
    have hE : ∀ (c : Nat) (s : Signal), c < 2 * m + 1 →
        pureEnc e c s = some (e s) := by
      intro c s hc
      rfl
    have hD : ∀ (c : Nat) (s : Signal), c < 2 * m + 1 →
        failAt (2 * m + 1) d c s = some (d s) := by
      intro c s hc
      have hne : c ≠ 2 * m + 1 := by omega
      simp [failAt, hne]
    rw [runLoop, hN, runFrom_split]
    rw [runFrom_agreeBelow e d (pureEnc e) (failAt (2 * m + 1) d) f orig K
      (2 * m + 1) hE hD m 0 ⟨orig, [], 0⟩ (by simp)]
    show runFrom (pureEnc e) (failAt (2 * m + 1) d) (pureMet f) orig K (0 + m)
      (t + 1) (pureRun e d f orig K 0 m ⟨orig, [], 0⟩) = _
    rw [pureRun_spec]
    show (match loopStep (pureEnc e) (failAt (2 * m + 1) d) (pureMet f) orig K
        (0 + m) ⟨(fun s => d (e s))^[m] orig,
          ((List.range m).filter (fun i => i % K == 0)).map
            (fun i => f orig ((fun s => d (e s))^[i + 1] orig)), 2 * m⟩ with
      | Except.error err => Except.error err
      | Except.ok st2 =>
          runFrom (pureEnc e) (failAt (2 * m + 1) d) (pureMet f) orig K
            (0 + m + 1) t st2) = _
    simp [loopStep, failAt, pureEnc]
  · intro c s hc
    simp [failAt, hc]
  · intro c s hc
    simp [failAt, hc]

theorem c5_no_retry_witness :
    (3 < 2 * 2) ∧
    ((3 % 2 = 0 →
      runLoop (failAt 3 wId) (pureEnc wId) (pureMet wMet) wSig 2 1 =
        Except.error (Err.codecFailure 3)) ∧
    (3 % 2 = 1 →
      runLoop (pureEnc wId) (failAt 3 wId) (pureMet wMet) wSig 2 1 =
        Except.error (Err.codecFailure 3)) ∧
    (∀ (c : Nat) (s : Signal), c ≠ 3 → failAt 3 wId c s = some (wId s)) ∧
    (∀ (c : Nat) (s : Signal), c ≠ 3 → failAt 3 wId c s = some (wId s))) :=
  ⟨by decide, c5_no_retry wId wId wMet wSig 2 1 3 (by decide)⟩

/-!
## Metrics failure (claim C6)

`calculate_audio_metrics` is called at sampled iterations with no
try/except around it (source lines 227-230); an exception raised inside it
(e.g. `librosa.util.frame` raising on a signal shorter than its frame
length) propagates out of `main` and aborts the run. No sentinel record is
appended.
-/

/-- Claim C6 counterexample: with a metrics computation that raises at the
sampled iteration 0, the run aborts with the propagated exception; the
result is an error, not a continued run with a sentinel-valued record. -/
theorem c6_counterexample :
    runLoop (pureEnc wId) (pureEnc wId) (fun _ _ => none) wSig 1 1 =
      Except.error Err.metricsFailure :=
  rfl

/-- If the metrics computation succeeds at every sampled iteration before
`istar` but raises at sampled iteration `istar`, the run started anywhere at
or before `istar` (with the signal the deterministic codec produces there)
aborts with the propagated exception. -/
theorem runFrom_metricsFail (e d : Signal → Signal)
    (mf : Signal → Signal → Option AudioMetrics) (orig : Signal)
    (K istar : Nat) (hsamp : istar % K = 0)
    (hfail : mf orig ((fun s => d (e s))^[istar + 1] orig) = none) :
    ∀ (len start : Nat) (st : LoopState),
      st.current = (fun s => d (e s))^[start] orig →
      (∀ i, start ≤ i → i < istar → i % K = 0 →
        (mf orig ((fun s => d (e s))^[i + 1] orig)).isSome) →
      start ≤ istar → istar < start + len →
      runFrom (pureEnc e) (pureEnc d) mf orig K start len st =
        Except.error Err.metricsFailure := by
  intro len
  induction len with
  | zero => intro start st hcur hsucc hle hlt; omega
  | succ n ih =>
    intro start st hcur hsucc hle hlt
    have hproc : d (e st.current) = (fun s => d (e s))^[start + 1] orig := by
      rw [hcur, Function.iterate_succ_apply']
    show (match loopStep (pureEnc e) (pureEnc d) mf orig K start st with
      | Except.error err => Except.error err
      | Except.ok st2 => runFrom (pureEnc e) (pureEnc d) mf orig K (start + 1) n st2) = _
    by_cases hs : start = istar
    · subst hs
      have hm : mf orig (d (e st.current)) = none := by
        rw [hproc, hfail]
      simp [loopStep, pureEnc, hsamp, hm]
    · have hlt' : start < istar := by omega
      by_cases hk : start % K = 0
      · have hsome := hsucc start (le_refl start) hlt' hk
        obtain ⟨m, hm0⟩ := Option.isSome_iff_exists.mp hsome
        have hm : mf orig (d (e st.current)) = some m := by
          rw [hproc, hm0]
        simp only [loopStep, pureEnc, hk, if_pos, hm]
        exact ih (start + 1) ⟨d (e st.current), st.series ++ [m], st.calls + 2⟩
          hproc (fun i hi1 hi2 hi3 => hsucc i (by omega) hi2 hi3)
          (by omega) (by omega)
      · simp only [loopStep, pureEnc, hk, if_neg, if_false]
        exact ih (start + 1) ⟨d (e st.current), st.series, st.calls + 2⟩
          hproc (fun i hi1 hi2 hi3 => hsucc i (by omega) hi2 hi3)
          (by omega) (by omega)

/-- Claim C6 as amended: if the metrics computation raises at any sampled
iteration `istar` (all earlier sampled computations having succeeded), the
exception propagates and the run aborts; no IterationRecord
(sentinel-valued or otherwise) is appended for that iteration and no
further iteration runs. -/
theorem c6_metrics_failure_aborts (e d : Signal → Signal)
    (mf : Signal → Signal → Option AudioMetrics) (orig : Signal)
    (N K istar : Nat) (hi : istar < N) (hsamp : istar % K = 0)
    (hsucc : ∀ i, i < istar → i % K = 0 →
      (mf orig ((fun s => d (e s))^[i + 1] orig)).isSome)
    (hfail : mf orig ((fun s => d (e s))^[istar + 1] orig) = none) :
    runLoop (pureEnc e) (pureEnc d) mf orig N K =
      Except.error Err.metricsFailure :=
  runFrom_metricsFail e d mf orig K istar hsamp hfail N 0 ⟨orig, [], 0⟩ rfl
    (fun i _ hi2 hi3 => hsucc i hi2 hi3) (by omega) (by omega)

/-- A deterministic codec stage that appends one sample, so successive
round-trips yield distinct signals. -/
def wGrow : Signal → Signal := fun s => s ++ [0]

/-- A metrics computation that raises once the degraded signal reaches
three samples: it succeeds at sampled iteration 0 and fails at sampled
iteration 1 of a `wGrow` run. -/
def wMfail : Signal → Signal → Option AudioMetrics :=
  fun _ b => if 3 ≤ b.length then none else some m0

theorem c6_metrics_failure_aborts_witness :
    (1 < 2) ∧ (1 % 1 = 0) ∧
    (∀ i, i < 1 → i % 1 = 0 →
      (wMfail wSig ((fun s => wId (wGrow s))^[i + 1] wSig)).isSome) ∧
    (wMfail wSig ((fun s => wId (wGrow s))^[1 + 1] wSig) = none) ∧
    runLoop (pureEnc wGrow) (pureEnc wId) wMfail wSig 2 1 =
      Except.error Err.metricsFailure :=
  ⟨by decide, by decide, by decide, by decide,
    c6_metrics_failure_aborts wGrow wId wMfail wSig 2 1 1 (by decide) (by decide)
      (by decide) (by decide)⟩

/-!
## Record contents (claim C7)

The object appended to `metrics` is the bare dict returned by
`calculate_audio_metrics` (source line 230): it has the five metric fields
and no iteration-index field. The sampled iteration index is only implicit
in the record's position in the list.
-/

/-- Claim C7 counterexample: a two-iteration run sampling every iteration
appends two records, sampled at the distinct iteration indices 0 and 1, that
are completely identical — so a record does not contain the iteration index
at which it was sampled. -/
theorem c7_counterexample :
    runLoop (pureEnc wId) (pureEnc wId) (pureMet wMet) wSig 2 1 =
      Except.ok ⟨wSig, [m0, m0], 4⟩ :=
  rfl

/-- Claim C7 as amended: records carry only the quality-metrics snapshot;
the sampled iteration index is implicit in position — the `p`-th record of
the series (0-based) is exactly the record sampled at iteration
`p * sample_every`, so insertion order equals sampled-index order. -/
theorem c7_series_position (e d : Signal → Signal)
    (f : Signal → Signal → AudioMetrics) (orig : Signal) (N K p : Nat)
    (hK : 1 ≤ K) (hp : p * K < N) :
    ∃ st : LoopState,
      runLoop (pureEnc e) (pureEnc d) (pureMet f) orig N K = Except.ok st ∧
      st.series[p]? = some (f orig ((fun s => d (e s))^[p * K + 1] orig)) := by
  refine ⟨pureRun e d f orig K 0 N ⟨orig, [], 0⟩, ?_, ?_⟩
  · exact runFrom_pure e d f orig K N 0 ⟨orig, [], 0⟩
  · rw [pureRun_spec]
    show (((List.range N).filter (fun i => i % K == 0)).map
      (fun i => f orig ((fun s => d (e s))^[i + 1] orig)))[p]? = _
    rw [range_filter_mod K hK N, List.map_map]
    have hpg : p < (N + K - 1) / K := by
      have hmul : (p + 1) * K = p * K + K := by ring
      have hle : (p + 1) * K ≤ N + K - 1 := by omega
      have := (Nat.le_div_iff_mul_le (by omega : 0 < K)).mpr hle
      omega
    simp [List.getElem?_map, List.getElem?_range, hpg]

theorem c7_series_position_witness :
    (1 ≤ 2) ∧ (1 * 2 < 3) ∧
    ∃ st : LoopState,
      runLoop (pureEnc wId) (pureEnc wId) (pureMet wMet) wSig 3 2 =
        Except.ok st ∧
      st.series[1]? = some (wMet wSig ((fun s => wId (wId s))^[1 * 2 + 1] wSig)) :=
  ⟨by decide, by decide,
    c7_series_position wId wId wMet wSig 3 2 1 (by decide) (by decide)⟩

/-!
## Checkpoint store (claim C3)

At each iteration `i` with `i % save_interval == 0` (source lines 248-262)
the script (1) copies the current wav to the fresh path
`checkpoints/checkpoint_<i>.wav` via `shutil.copy2`, then (2) opens
`metrics.json` with mode `"w"` — truncating the existing file in place —
and (3) `json.dump`s the new content. The store state records which
checkpoint wavs exist and the state of `metrics.json`; the save is modelled
as the list of every intermediate on-disk state, in order, so a crash at any
point leaves one of the listed states on disk.
-/

/-- State of the `metrics.json` file on disk: absent, truncated/partially
written (not loadable), or a complete JSON document whose `last_iteration`
field is `i`. -/
inductive MFile where
  | absent
  | invalid
  | valid (last_iteration : Nat)
deriving DecidableEq, Repr

/-- Whether the metrics file on disk parses as a complete document. -/
def MFile.isValid : MFile → Bool
  | MFile.valid _ => true
  | _ => false

/-- On-disk state of the output directory: the set of iterations `i` for
which `checkpoint_<i>.wav` exists, and the state of `metrics.json`. -/
structure StoreState where
  wavs : Finset Nat
  metricsJson : MFile
deriving DecidableEq

/-- The state at the end of a completed save at iteration `i`. -/
def saveEnd (i : Nat) (st : StoreState) : StoreState :=
  ⟨insert i st.wavs, MFile.valid i⟩

/-- The successive on-disk states produced by the save at iteration `i`
(source lines 248-262): after `shutil.copy2` to `checkpoint_<i>.wav`, after
`open(metrics_file, "w")` truncates `metrics.json`, and after `json.dump`
completes. -/
def saveStates (i : Nat) (st : StoreState) : List StoreState :=
  [⟨insert i st.wavs, st.metricsJson⟩,
   ⟨insert i st.wavs, MFile.invalid⟩,
   saveEnd i st]

/-- All intermediate store states over `len` iterations starting at
iteration `start`, saving whenever `i % M == 0`. -/
def storeTraceAux (M : Nat) : Nat → Nat → StoreState → List StoreState
  | _, 0, _ => []
  | start, len + 1, st =>
    if start % M = 0 then
      saveStates start st ++ storeTraceAux M (start + 1) len (saveEnd start st)
    else
      storeTraceAux M (start + 1) len st

/-- All on-disk store states over an `N`-iteration run with save interval
`M`, starting from an empty output directory. -/
def storeTrace (N M : Nat) : List StoreState :=
  ⟨∅, MFile.absent⟩ :: storeTraceAux M 0 N ⟨∅, MFile.absent⟩

/-- A full checkpoint is loadable: some checkpoint wav exists and
`metrics.json` is a complete document. -/
def hasLoadable (st : StoreState) : Bool :=
  decide (st.wavs ≠ ∅) && st.metricsJson.isValid

/-- Claim C3 counterexample: in a 2-iteration run saving every iteration,
the on-disk state at instant 3 (after the first save completes) holds a
loadable checkpoint, but the later instant 5 — after the second save has
truncated `metrics.json` and before the replacement contents are written —
holds none: a crash there leaves zero loadable checkpoints, so the save is
not an atomic replace. -/
theorem c3_counterexample :
    hasLoadable ((storeTrace 2 1).getD 3 ⟨∅, MFile.absent⟩) = true ∧
    hasLoadable ((storeTrace 2 1).getD 5 ⟨∅, MFile.absent⟩) = false := by
  decide

/-- Claim C3 as amended: each save writes the checkpoint signal to a fresh
per-iteration file, never deleting or overwriting previously written
checkpoint wavs, and a completed save leaves a valid metrics file naming the
saved iteration; but `metrics.json` is replaced by truncate-then-write, so
every save passes through an intermediate on-disk state whose metrics file
is truncated and unloadable. -/
theorem c3_save_behavior (i : Nat) (st : StoreState) :
    (∀ s ∈ saveStates i st, st.wavs ⊆ s.wavs) ∧
    (StoreState.mk (insert i st.wavs) MFile.invalid) ∈ saveStates i st ∧
    (saveStates i st).getLast? = some (saveEnd i st) ∧
    (saveEnd i st).metricsJson = MFile.valid i := by
  refine ⟨?_, ?_, rfl, rfl⟩
  · intro s hs
    simp only [saveStates, saveEnd, List.mem_cons, List.mem_singleton,
      List.not_mem_nil, or_false] at hs
    rcases hs with h | h | h <;> subst h <;> exact Finset.subset_insert _ _
  · simp [saveStates]

theorem c3_save_behavior_witness :
    (∀ s ∈ saveStates 0 (⟨∅, MFile.absent⟩ : StoreState),
      (⟨∅, MFile.absent⟩ : StoreState).wavs ⊆ s.wavs) ∧
    (StoreState.mk (insert 0 (⟨∅, MFile.absent⟩ : StoreState).wavs) MFile.invalid) ∈
      saveStates 0 ⟨∅, MFile.absent⟩ ∧
    (saveStates 0 ⟨∅, MFile.absent⟩).getLast? = some (saveEnd 0 ⟨∅, MFile.absent⟩) ∧
    (saveEnd 0 (⟨∅, MFile.absent⟩ : StoreState)).metricsJson = MFile.valid 0 :=
  c3_save_behavior 0 ⟨∅, MFile.absent⟩

/-!
## Temporary artifacts (claim C4)

Per iteration `i` the script creates `temp_<i>.opus` (line 223) and
`temp_<i>.wav` (line 224) in `temp_dir`, unlinks `temp_<i>.opus` after the
iteration's work (line 275) and unlinks the previous iteration's
`temp_<i-1>.wav` (lines 277-278). The trace below records the contents of
`temp_dir` after each of these four filesystem operations, in program
order.
-/

/-- A file in the temporary directory: `temp_<i>.opus` or `temp_<i>.wav`. -/
inductive TempFile where
  | opus (i : Nat)
  | wav (i : Nat)
deriving DecidableEq, Repr

/-- Contents of `temp_dir` at the end of iteration `i` that started with
contents `s`: both files created, the opus deleted, and (when `i > 0`) the
previous wav deleted. -/
def iterTempEnd (i : Nat) (s : Finset TempFile) : Finset TempFile :=
  let s3 := (insert (TempFile.wav i) (insert (TempFile.opus i) s)).erase
    (TempFile.opus i)
  if i = 0 then s3 else s3.erase (TempFile.wav (i - 1))

/-- The successive contents of `temp_dir` during iteration `i` starting from
contents `s`: after creating `temp_<i>.opus`, after creating `temp_<i>.wav`,
after unlinking `temp_<i>.opus`, and after unlinking `temp_<i-1>.wav`. -/
def iterTempStates (i : Nat) (s : Finset TempFile) : List (Finset TempFile) :=
  [insert (TempFile.opus i) s,
   insert (TempFile.wav i) (insert (TempFile.opus i) s),
   (insert (TempFile.wav i) (insert (TempFile.opus i) s)).erase (TempFile.opus i),
   iterTempEnd i s]

/-- All intermediate `temp_dir` contents over `len` iterations starting at
iteration `start` with contents `s`. -/
def tempTraceAux : Nat → Nat → Finset TempFile → List (Finset TempFile)
  | _, 0, _ => []
  | start, len + 1, s =>
    iterTempStates start s ++ tempTraceAux (start + 1) len (iterTempEnd start s)

/-- All intermediate `temp_dir` contents of an `N`-iteration run, starting
from the fresh `tempfile.mkdtemp()` directory. -/
def tempTrace (N : Nat) : List (Finset TempFile) :=
  ∅ :: tempTraceAux 0 N ∅

/-- The `temp_dir` contents at the start of iteration `i`: empty before
iteration 0, exactly the previous iteration's wav afterwards. -/
def entrySet : Nat → Finset TempFile
  | 0 => ∅
  | k + 1 => {TempFile.wav k}

theorem opus_not_mem_entry (i k : Nat) : TempFile.opus i ∉ entrySet k := by
  cases k <;> simp [entrySet]

theorem iterTempEnd_entry (i : Nat) :
    iterTempEnd i (entrySet i) = {TempFile.wav i} := by
  cases i with
  | zero =>
    ext t
    cases t <;> simp [iterTempEnd, entrySet]
  | succ k =>
    ext t
    cases t with
    | opus j => simp [iterTempEnd, entrySet]
    | wav j =>
      simp [iterTempEnd, entrySet]
      omega

theorem tempTraceAux_card :
    ∀ (len start : Nat), ∀ t ∈ tempTraceAux start len (entrySet start),
      t.card ≤ 3 := by
  intro len
  induction len with
  | zero => intro start t ht; simp [tempTraceAux] at ht
  | succ n ih =>
    intro start t ht
    have hentry : (entrySet start).card ≤ 1 := by
      cases start <;> simp [entrySet]
    rw [tempTraceAux] at ht
    rcases List.mem_append.mp ht with h | h
    · have h1 := Finset.card_insert_le (TempFile.opus start) (entrySet start)
      have h2 := Finset.card_insert_le (TempFile.wav start)
        (insert (TempFile.opus start) (entrySet start))
      have h3 := Finset.card_erase_le
        (s := insert (TempFile.wav start) (insert (TempFile.opus start) (entrySet start)))
        (a := TempFile.opus start)
      simp only [iterTempStates, List.mem_cons, List.mem_singleton,
        List.not_mem_nil, or_false] at h
      rcases h with h | h | h | h <;> subst h
      · omega
      · omega
      · omega
      · rw [iterTempEnd_entry]
        simp
    · have he : iterTempEnd start (entrySet start) = entrySet (start + 1) := by
        rw [iterTempEnd_entry]
        rfl
      rw [he] at h
      exact ih (start + 1) t h

/-- Claim C4 counterexample: in a 2-iteration run, the instant of iteration
1 after `temp_1.wav` has been created and before `temp_1.opus` and
`temp_0.wav` are unlinked has three artifacts
(`temp_0.wav`, `temp_1.opus`, `temp_1.wav`) in the temporary directory —
more than the claimed bound of two. -/
theorem c4_counterexample :
    (insert (TempFile.wav 1) (insert (TempFile.opus 1) {TempFile.wav 0}) ∈
      tempTrace 2) ∧
    (insert (TempFile.wav 1)
      (insert (TempFile.opus 1) ({TempFile.wav 0} : Finset TempFile))).card = 3 := by
  decide

/-- Claim C4 as amended: at every instant of a run of any length at most
three temporary artifacts exist in the temporary directory — the previous
iteration's wav plus the current iteration's opus and wav; the previous
iteration's artifacts are deleted by the end of the current iteration, so
temporary disk usage is O(1), never O(N). -/
theorem c4_bounded_artifacts (N : Nat) :
    ∀ s ∈ tempTrace N, s.card ≤ 3 := by
  intro s hs
  rcases List.mem_cons.mp hs with rfl | h
  · simp
  · exact tempTraceAux_card N 0 s h

theorem c4_bounded_artifacts_witness :
    ({TempFile.wav 0} : Finset TempFile).card ≤ 3 :=
  c4_bounded_artifacts 1 {TempFile.wav 0} (by decide)

end LossExperiment
